import Mathlib

/-!
Shallow embedding of the visualization configuration engine of the
`ai-driven-real-time-console` repository (the `MultiVisualization` engine in
`src/unnamed/part_000`, with the sibling variants in
`src/frontend/app/MultiVisualization.jsx`).

JavaScript values occurring in query-result rows are numbers, strings or
null.  JavaScript numbers are modelled as exact rationals extended with the
three non-finite values `NaN`, `Infinity` and `-Infinity`; rows are ordered
associative lists from column names to values, which mirrors the insertion
order of JavaScript object keys that the source relies on.
-/

namespace VizEngine

/-- Model of a JavaScript number: a finite rational, or one of the
non-finite values NaN, Infinity and -Infinity. -/
inductive JNum where
  | fin (q : ℚ)
  | nan
  | inf
  | ninf
deriving DecidableEq

/-- Model of a JavaScript row-cell value: number, string or null.
A missing object property (undefined) is modelled by `Option.none`
at the lookup level. -/
inductive JVal where
  | num (n : JNum)
  | str (s : String)
  | null
deriving DecidableEq

/-- A row is an ordered association list from column names to values,
mirroring the key insertion order of a JavaScript object. -/
abbrev Row := List (String × JVal)

/-- JavaScript whitespace characters relevant to `trim` and `\s` in the
source regexes (space, tab, newline, carriage return). -/
def isJsWs (c : Char) : Bool :=
  c = ' ' || c = '\t' || c = '\n' || c = '\r'

/-- Model of `String.prototype.trim()`: drop whitespace on both ends. -/
def jsTrim (s : String) : String :=
  String.mk (((s.toList.dropWhile isJsWs).reverse.dropWhile isJsWs).reverse)

/-- Drop trailing whitespace only. -/
def dropRightWs (s : String) : String :=
  String.mk ((s.toList.reverse.dropWhile isJsWs).reverse)

/-- Model of the replacement `key.replace(/\s+(asc|desc)\s*$/i, "")` from
`utils.cleanKey` in `src/unnamed/part_000`: if the string, after its
trailing whitespace, ends in a case-insensitive `asc` or `desc` token that
is preceded by at least one whitespace character, the whole matched suffix
(the whitespace run, the token and the trailing whitespace) is removed;
otherwise the string is returned unchanged. -/
def stripSortSuffix (s : String) : String :=
  let t := dropRightWs s
  let tl := t.toList.map Char.toLower
  let tryStrip : Nat → Option String := fun n =>
    let u := t.toList.take (t.toList.length - n)
    match u.getLast? with
    | some c => if isJsWs c then some (String.mk ((u.reverse.dropWhile isJsWs).reverse)) else none
    | none => none
  if tl.reverse.take 4 = ['c', 's', 'e', 'd'] then
    match tryStrip 4 with
    | some r => r
    | none => s
  else if tl.reverse.take 3 = ['c', 's', 'a'] then
    match tryStrip 3 with
    | some r => r
    | none => s
  else s

/-- Model of `utils.cleanKey` on a present (non-nullish) string:
`key.replace(/\s+(asc|desc)\s*$/i, "").trim()`. -/
def cleanKeyStr (s : String) : String :=
  jsTrim (stripSortSuffix s)

/-- Model of `utils.cleanKey : (key) => key?.replace(/\s+(asc|desc)\s*$/i, "").trim()`
from `src/unnamed/part_000`; nullish input short-circuits to a nullish
result via the optional-chaining operator. -/
def cleanKey : Option String → Option String :=
  Option.map cleanKeyStr

/-- The leading segment of a character list before the first occurrence
of a separator (the `[0]` element of a JavaScript `split`). -/
def firstSegment (sep : List Char) : List Char → List Char
  | [] => []
  | c :: cs => if List.isPrefixOf sep (c :: cs) then [] else c :: firstSegment sep cs

/-- The alias handling of `processData` in
`src/frontend/app/MultiVisualization.jsx`:
`axes.x.split(' as ')[0].trim()`. -/
def aliasKey (s : String) : String :=
  jsTrim (String.mk (firstSegment " as ".toList s.toList))

/-- Rounding to 2 decimal places as performed by `Number(x.toFixed(2))` on a
finite number: nearest hundredth, ties rounded up (ECMA `toFixed`
picks the larger candidate on a tie). -/
def round2 (q : ℚ) : ℚ :=
  ((round (q * 100) : ℤ) : ℚ) / 100

/-- The round trip `Number(val.toFixed(2))` on a JavaScript number:
finite values are rounded to 2 decimals, while `NaN`, `Infinity` and
`-Infinity` are stringified and parsed back to themselves. -/
def toFixed2RoundTrip : JNum → JNum
  | JNum.fin q => JNum.fin (round2 q)
  | n => n

/-- Model of `utils.formatNumber : (val) => typeof val === "number" ? Number(val.toFixed(2)) : val`
from `src/unnamed/part_000`. -/
def formatNumber : JVal → JVal
  | JVal.num n => JVal.num (toFixed2RoundTrip n)
  | v => v

/-- Decimal digits of the fractional part of a nonnegative rational,
produced most-significant first, stopping at an exact remainder or after
the fuel runs out. -/
def fracDigits : ℚ → Nat → List Nat
  | _, 0 => []
  | f, Nat.succ k =>
    if f = 0 then []
    else
      let d := ⌊f * 10⌋
      d.toNat :: fracDigits (f * 10 - (d : ℚ)) k

/-- Decimal digit characters of a natural number, most significant first
(fuel-driven so the recursion is structural). -/
def natToDigits : Nat → Nat → List Char
  | 0, _ => []
  | Nat.succ f, n =>
    if n < 10 then [Nat.digitChar n]
    else natToDigits f (n / 10) ++ [Nat.digitChar (n % 10)]

/-- Decimal rendering of a natural number. -/
def natToString (n : Nat) : String :=
  String.mk (natToDigits (n + 1) n)

/-- Decimal rendering of a nonnegative rational, as JavaScript prints the
(decimally exact) numbers this engine produces: integer part, then a dot
and the fractional digits when the fractional part is nonzero. -/
def posRatToString (q : ℚ) : String :=
  let ip := (⌊q⌋).toNat
  let ds := fracDigits (q - (⌊q⌋ : ℚ)) 10
  if ds.isEmpty then natToString ip
  else natToString ip ++ "." ++ String.mk (ds.map Nat.digitChar)

/-- Decimal rendering of a rational (JavaScript `String(number)` for the
finite case). -/
def ratToString (q : ℚ) : String :=
  if q < 0 then "-" ++ posRatToString (-q) else posRatToString q

/-- JavaScript `String()` conversion of a number. -/
def jnumToString : JNum → String
  | JNum.fin q => ratToString q
  | JNum.nan => "NaN"
  | JNum.inf => "Infinity"
  | JNum.ninf => "-Infinity"

/-- JavaScript `String()` conversion of a row-cell value. -/
def jsToString : JVal → String
  | JVal.str s => s
  | JVal.num n => jnumToString n
  | JVal.null => "null"

/-- Split a character list into its leading decimal digits and the rest. -/
def takeDigits (cs : List Char) : List Char × List Char :=
  (cs.takeWhile Char.isDigit, cs.dropWhile Char.isDigit)

/-- Numeric value of a list of decimal digit characters. -/
def digitsVal (ds : List Char) : Nat :=
  ds.foldl (fun a c => a * 10 + (c.toNat - 48)) 0

/-- Parse an unsigned decimal mantissa (`digits`, `digits.digits` or
`.digits`) from a character list, returning its value and the remaining
characters. -/
def parseMantissa (cs : List Char) : Option (ℚ × List Char) :=
  let p := takeDigits cs
  match p.2 with
  | '.' :: r2 =>
    let f := takeDigits r2
    if p.1.isEmpty && f.1.isEmpty then none
    else some ((digitsVal p.1 : ℚ) + (digitsVal f.1 : ℚ) / (10 : ℚ) ^ f.1.length, f.2)
  | _ => if p.1.isEmpty then none else some ((digitsVal p.1 : ℚ), p.2)

/-- Parse an optional exponent part (`e`/`E`, optional sign, digits) that
must consume the whole remainder, applying it to the mantissa value. -/
def applyExp (q : ℚ) (cs : List Char) : Option ℚ :=
  match cs with
  | [] => some q
  | e :: r =>
    if e = 'e' ∨ e = 'E' then
      let sp : Bool × List Char :=
        match r with
        | '+' :: t => (true, t)
        | '-' :: t => (false, t)
        | _ => (true, r)
      let d := takeDigits sp.2
      if d.1.isEmpty ∨ ¬ d.2.isEmpty then none
      else some (if sp.1 then q * (10 : ℚ) ^ digitsVal d.1 else q / (10 : ℚ) ^ digitsVal d.1)
    else none

/-- JavaScript `Number(string)` coercion for the decimal string numeric
literals this engine can produce: whitespace is trimmed, the empty string
is 0, `Infinity` with an optional sign is infinite, a signed decimal
literal with an optional exponent is its value, and anything else is NaN. -/
def jsStrToNum (s : String) : JNum :=
  let cs := ((s.toList.dropWhile isJsWs).reverse.dropWhile isJsWs).reverse
  match cs with
  | [] => JNum.fin 0
  | _ =>
    let sp : Bool × List Char :=
      match cs with
      | '+' :: t => (false, t)
      | '-' :: t => (true, t)
      | _ => (false, cs)
    if sp.2 = "Infinity".toList then (if sp.1 then JNum.ninf else JNum.inf)
    else
      match parseMantissa sp.2 with
      | none => JNum.nan
      | some (q, rest) =>
        match applyExp q rest with
        | none => JNum.nan
        | some v => JNum.fin (if sp.1 then -v else v)

/-- JavaScript `ToNumber` on a row-cell value: numbers are themselves,
null is 0 and strings are parsed. -/
def toNumber : JVal → JNum
  | JVal.num n => n
  | JVal.null => JNum.fin 0
  | JVal.str s => jsStrToNum s

/-- Truthiness of a JavaScript number (`0` and `NaN` are falsy). -/
def truthyNum : JNum → Bool
  | JNum.fin q => if q = 0 then false else true
  | JNum.nan => false
  | JNum.inf => true
  | JNum.ninf => true

/-- Truthiness of a row-cell value (`0`, `NaN`, `""` and `null` are falsy). -/
def jsTruthy : JVal → Bool
  | JVal.num n => truthyNum n
  | JVal.str s => if s = "" then false else true
  | JVal.null => false

/-- Numeric addition with JavaScript NaN and infinity propagation. -/
def jnumAdd : JNum → JNum → JNum
  | JNum.nan, _ => JNum.nan
  | _, JNum.nan => JNum.nan
  | JNum.inf, JNum.ninf => JNum.nan
  | JNum.ninf, JNum.inf => JNum.nan
  | JNum.inf, _ => JNum.inf
  | _, JNum.inf => JNum.inf
  | JNum.ninf, _ => JNum.ninf
  | _, JNum.ninf => JNum.ninf
  | JNum.fin p, JNum.fin q => JNum.fin (p + q)

/-- Is the value a string? -/
def isStrVal : JVal → Bool
  | JVal.str _ => true
  | _ => false

/-- JavaScript binary `+` on row-cell values: if either operand is a
string the operands are stringified and concatenated, otherwise both are
coerced to numbers and added. -/
def jsAdd (a b : JVal) : JVal :=
  if isStrVal a || isStrVal b then JVal.str (jsToString a ++ jsToString b)
  else JVal.num (jnumAdd (toNumber a) (toNumber b))

/-- JavaScript `/` on numbers (NaN propagates; division by zero gives a
signed infinity, or NaN for `0 / 0`). -/
def jsDiv : JNum → JNum → JNum
  | JNum.nan, _ => JNum.nan
  | _, JNum.nan => JNum.nan
  | JNum.fin p, JNum.fin q =>
    if q = 0 then (if p = 0 then JNum.nan else if p > 0 then JNum.inf else JNum.ninf)
    else JNum.fin (p / q)
  | JNum.inf, JNum.fin q => if q < 0 then JNum.ninf else JNum.inf
  | JNum.ninf, JNum.fin q => if q < 0 then JNum.inf else JNum.ninf
  | JNum.fin _, JNum.inf => JNum.fin 0
  | JNum.fin _, JNum.ninf => JNum.fin 0
  | JNum.inf, JNum.inf => JNum.nan
  | JNum.inf, JNum.ninf => JNum.nan
  | JNum.ninf, JNum.inf => JNum.nan
  | JNum.ninf, JNum.ninf => JNum.nan

/-- Binary step of `Math.max`: NaN absorbs, infinities compare as usual. -/
def jnumMax : JNum → JNum → JNum
  | JNum.nan, _ => JNum.nan
  | _, JNum.nan => JNum.nan
  | JNum.inf, _ => JNum.inf
  | _, JNum.inf => JNum.inf
  | JNum.ninf, b => b
  | a, JNum.ninf => a
  | JNum.fin p, JNum.fin q => JNum.fin (max p q)

/-- Model of `Math.max(...)` over a list of numbers; the empty call yields
`-Infinity`. -/
def jsMax (l : List JNum) : JNum :=
  l.foldl jnumMax JNum.ninf

/-- Property read `row[key]`: first binding of the key, or none for a
missing property (JavaScript object keys are unique, so first-match
lookup agrees with object semantics). -/
def getKey : Row → String → Option JVal
  | [], _ => none
  | (k, v) :: r, key => if k = key then some v else getKey r key

/-- Property write `row[key] = v`: updates the existing binding in place,
or appends a new binding at the end, as JavaScript object assignment
orders keys. -/
def setKey : Row → String → JVal → Row
  | [], k, v => [(k, v)]
  | (k1, v1) :: r, k, v => if k1 = k then (k, v) :: r else (k1, v1) :: setKey r k v

/-- The x/y axis references of a visualization config (`config.axes`);
either reference may be absent. -/
structure Axes where
  x : Option String := none
  y : Option String := none
deriving DecidableEq

/-- The open option set of a visualization config (`config.settings`). -/
structure ChartSettings where
  donut : Option Bool := none
  showPoints : Option Bool := none
  interpolation : Option String := none
deriving DecidableEq

/-- Style carried by an annotation spec (stroke color, dash pattern,
marker fill and radius). -/
structure Style where
  stroke : Option String := none
  strokeDasharray : Option String := none
  fill : Option String := none
  r : Option JNum := none
deriving DecidableEq

/-- Declarative annotation spec from `config.annotations`; any field may
be absent, as configs can come from an upstream generator. -/
structure AnnotationSpec where
  type : Option String := none
  mode : Option String := none
  x : Option JVal := none
  y : Option JVal := none
  label : Option String := none
  style : Option Style := none
deriving DecidableEq

/-- Visualization configuration descriptor (`type`, `axes`, `settings`,
`annotations`); modelled with every part optional, as the engine treats
configs defensively. -/
structure VizConfig where
  type : Option String := none
  axes : Option Axes := none
  settings : Option ChartSettings := none
  annotations : Option (List AnnotationSpec) := none
deriving DecidableEq

/-- The cleaned x-axis key of `useProcessedData`:
`axes?.x ? utils.cleanKey(axes.x) : null` (an absent axes object, an
absent reference or an empty — falsy — reference give null). -/
def xKeyOf (cfg : VizConfig) : Option String :=
  match cfg.axes with
  | some ax =>
    match ax.x with
    | some x => if x = "" then none else some (cleanKeyStr x)
    | none => none
  | none => none

/-- The cleaned y-axis key of `useProcessedData`:
`axes?.y ? utils.cleanKey(axes.y) : null`. -/
def yKeyOf (cfg : VizConfig) : Option String :=
  match cfg.axes with
  | some ax =>
    match ax.y with
    | some y => if y = "" then none else some (cleanKeyStr y)
    | none => none
  | none => none

/-- The property name actually read by `obj[key]` when `key` may be the
JavaScript null value: null is coerced to the string "null". -/
def keyName : Option String → String
  | some s => s
  | none => "null"

/-- Model of `s.startsWith(p)`, computed on the underlying character lists. -/
def strStartsWith (s p : String) : Bool :=
  List.isPrefixOf p.toList s.toList

/-- The field-copy step of `useProcessedData`: every field whose key does
not start with `_` is copied, its value passed through
`utils.formatNumber`. -/
def copyRow : Row → Row
  | [] => []
  | (k, v) :: r =>
    if strStartsWith k "_" then copyRow r
    else (k, formatNumber v) :: copyRow r

/-- The synthesized category label `Category {index + 1}`. -/
def catLabel (index : Nat) : String :=
  "Category " ++ natToString (index + 1)

/-- The `name` derivation step of `useProcessedData`:
`processed.name = xAxisKey ? String(processed[xAxisKey] ?? cat) : cat`
where `cat` is the synthesized category label. -/
def withName (xAxisKey : Option String) (index : Nat) (r : Row) : Row :=
  let nm :=
    match xAxisKey with
    | some xk =>
      if xk = "" then catLabel index
      else
        match getKey r xk with
        | some JVal.null => catLabel index
        | none => catLabel index
        | some v => jsToString v
    | none => catLabel index
  setKey r "name" (JVal.str nm)

/-- The `processed.percentage ?? 0` tail of the value fallback chain. -/
def pctOr0 (r : Row) : JVal :=
  match getKey r "percentage" with
  | some w => if w = JVal.null then JVal.num (JNum.fin 0) else w
  | none => JVal.num (JNum.fin 0)

/-- The `value` derivation step of `useProcessedData`:
`processed.value = typeof processed[yAxisKey] === "number" ? processed[yAxisKey] : processed.value ?? processed.percentage ?? 0`. -/
def withValue (yAxisKey : Option String) (r : Row) : Row :=
  let v :=
    match getKey r (keyName yAxisKey) with
    | some (JVal.num n) => JVal.num n
    | _ =>
      match getKey r "value" with
      | some w => if w = JVal.null then pctOr0 r else w
      | none => pctOr0 r
  setKey r "value" v

/-- The categorical palette `COLORS.categorical` of
`src/unnamed/part_000`. -/
def categoricalPalette : List String :=
  ["#2563eb", "#059669", "#d97706", "#dc2626", "#7c3aed",
   "#db2777", "#2563eb", "#059669", "#d97706", "#dc2626"]

/-- The color assignment step of `useProcessedData`:
`processed.color = COLORS.categorical[index % COLORS.categorical.length]`. -/
def withColor (index : Nat) (r : Row) : Row :=
  setKey r "color" (JVal.str (categoricalPalette.getD (index % categoricalPalette.length) ""))

/-- The row state after the copy and `name` steps of `useProcessedData`,
on which the `value` fallback chain performs its lookups. -/
def preNormalized (cfg : VizConfig) (index : Nat) (row : Row) : Row :=
  withName (xKeyOf cfg) index (copyRow row)

/-- Normalization of one row at a given index, as performed by the body of
`data.map((row, index) => ...)` in `useProcessedData`. -/
def processRow (cfg : VizConfig) (index : Nat) (row : Row) : Row :=
  withColor index (withValue (yKeyOf cfg) (preNormalized cfg index row))

/-- Index-threading map over the rows, mirroring `data.map((row, index) => ...)`. -/
def processAll (cfg : VizConfig) : Nat → List Row → List Row
  | _, [] => []
  | i, r :: rs => processRow cfg i r :: processAll cfg (i + 1) rs

/-- Model of `useProcessedData(data, vizConfig)` from `src/unnamed/part_000`:
absent, non-array or empty data gives an empty array, otherwise each row
is normalized in order. -/
def useProcessedData (data : Option (List Row)) (cfg : VizConfig) : List Row :=
  match data with
  | none => []
  | some rows => if rows.isEmpty then [] else processAll cfg 0 rows

/-- Is the value of JavaScript number type (`typeof v === "number"`,
which includes NaN and infinities)? -/
def isNumVal : JVal → Bool
  | JVal.num _ => true
  | _ => false

/-- The `col !== xKey` comparison where `xKey` may be null (a string is
never equal to null). -/
def neqOpt (c : String) (k : Option String) : Bool :=
  match k with
  | some s => if c = s then false else true
  | none => true

/-- Model of `utils.getNumericColumns(sampleRow, xKey)` from
`src/unnamed/part_000`: the keys of the sample row, in insertion order,
whose value is numeric and whose name is neither the x-axis key nor
`color` nor `name`. -/
def getNumericColumns (sampleRow : Option Row) (xKey : Option String) : List String :=
  match sampleRow with
  | none => []
  | some r =>
    r.filterMap (fun p =>
      if neqOpt p.1 xKey && p.1 != "color" && p.1 != "name" && isNumVal p.2 then some p.1
      else none)

/-- JavaScript `a || b` for an optional string `a` and string default `b`
(an absent or empty string falls through to the default). -/
def strOr (o : Option String) (d : String) : String :=
  match o with
  | some s => if s = "" then d else s
  | none => d

/-- JavaScript `a || b` for an optional number `a` and a numeric default
(an absent, zero or NaN value falls through to the default), used for
`styleProps.r || 5`. -/
def numOr (o : Option JNum) (d : ℚ) : JNum :=
  match o with
  | some n => if truthyNum n then n else JNum.fin d
  | none => JNum.fin d

/-- Truthiness of the `yAxisKey` guard in `renderAnnotations` (a null or
empty-string key is falsy). -/
def truthyKey : Option String → Bool
  | some s => if s = "" then false else true
  | none => false

/-- Renderer-agnostic annotation output: a horizontal reference line
(value, stroke, dash pattern, label) or a reference point
(coordinates, radius, stroke, fill, label), the data carried by the
`ReferenceLine` / `ReferenceDot` elements that `renderAnnotations`
produces. -/
inductive AnnotationResult where
  | line (value : JNum) (stroke : String) (dash : String) (label : Option String)
  | dot (x y : JVal) (r : JNum) (stroke : String) (fill : String) (label : Option String)
deriving DecidableEq

/-- The per-row operand `d[yAxisKey] || 0` shared by the average and
trend branches of `renderAnnotations`: a missing or falsy value falls
through to 0. -/
def rawContrib (yKey : Option String) (d : Row) : JVal :=
  match getKey d (keyName yKey) with
  | none => JVal.num (JNum.fin 0)
  | some v => if jsTruthy v then v else JVal.num (JNum.fin 0)

/-- The average computed by the `mode: 'average'` branch of
`renderAnnotations`:
`data.reduce((acc, d) => acc + (d[yAxisKey] || 0), 0) / data.length || 0`. -/
def avgValue (rows : List Row) (yKey : Option String) : JNum :=
  let s := rows.foldl (fun acc d => jsAdd acc (rawContrib yKey d)) (JVal.num (JNum.fin 0))
  let q := jsDiv (toNumber s) (JNum.fin (rows.length : ℚ))
  if truthyNum q then q else JNum.fin 0

/-- The placeholder value computed by the `trend` / `regression` branch of
`renderAnnotations`: `Math.max(...data.map((d) => d[yAxisKey] || 0))`. -/
def maxValue (rows : List Row) (yKey : Option String) : JNum :=
  jsMax (rows.map (fun d => toNumber (rawContrib yKey d)))

/-- Evaluation of one annotation spec by `renderAnnotations` in
`src/unnamed/part_000`: line/average (guarded by a truthy y-axis key),
line/trend-or-regression (horizontal line at the maximum), line with a
literal numeric `y`, dot with both coordinates present; anything else is
skipped (the callback returns null). -/
def evalAnno (rows : List Row) (yKey : Option String) (a : AnnotationSpec) :
    Option AnnotationResult :=
  let st := a.style.getD {}
  if a.type = some "line" ∧ a.mode = some "average" ∧ truthyKey yKey = true then
    some (AnnotationResult.line (avgValue rows yKey) (strOr st.stroke "#666")
      (strOr st.strokeDasharray "3 3") (some (strOr a.label "Avg")))
  else if a.type = some "line" ∧ (a.mode = some "trend" ∨ a.mode = some "regression") then
    some (AnnotationResult.line (maxValue rows yKey) (strOr st.stroke "rgba(255,0,0,0.5)")
      (strOr st.strokeDasharray "5,5") (some (strOr a.label "Trend/Max")))
  else if a.type = some "line" then
    match a.y with
    | some (JVal.num n) =>
      some (AnnotationResult.line n (strOr st.stroke "#888")
        (strOr st.strokeDasharray "3,3") a.label)
    | _ => none
  else if a.type = some "dot" ∧ a.x ≠ none ∧ a.y ≠ none then
    some (AnnotationResult.dot (a.x.getD JVal.null) (a.y.getD JVal.null)
      (numOr st.r 5) (strOr st.stroke "red") (strOr st.fill "white") a.label)
  else none

/-- The annotation engine contract `computeAnnotations(rows, specs, yKey)`
realized by `renderAnnotations`: specs are evaluated in input order and
the skipped ones produce no output (an absent or empty spec list produces
nothing). -/
def computeAnnotations (rows : List Row) (annos : List AnnotationSpec)
    (yKey : Option String) : List AnnotationResult :=
  if annos.isEmpty then []
  else annos.filterMap (evalAnno rows yKey)

/-- Is a column excluded from the CSV projection of `handleExport`
(`col.startsWith("_") || ["color","name","value"].includes(col)`)? -/
def reservedCol (c : String) : Bool :=
  strStartsWith c "_" || c == "color" || c == "name" || c == "value"

/-- The projected CSV column set of `handleExport`: keys of the first raw
row, minus the reserved and derived columns. -/
def csvColumns (data : List Row) : List String :=
  match data with
  | [] => []
  | r :: _ => (r.map Prod.fst).filter (fun c => !reservedCol c)

/-- The `/"/g` replacement with `""`: double every double-quote character. -/
def escQuotes : List Char → List Char
  | [] => []
  | c :: cs => if c = '"' then '"' :: '"' :: escQuotes cs else c :: escQuotes cs

/-- CSV quoting of a string cell: wrap in double quotes with embedded
double quotes doubled (`"${val.replace(/"/g, '""')}"`). -/
def quoteCsv (s : String) : String :=
  "\"" ++ String.mk (escQuotes s.toList) ++ "\""

/-- One CSV cell of `handleExport`: `row[col] ?? ""` then the string case
is quoted-and-escaped while a number is rendered as-is by the join. -/
def csvCellImpl (row : Row) (col : String) : String :=
  match getKey row col with
  | some (JVal.str s) => quoteCsv s
  | some (JVal.num n) => jnumToString n
  | _ => quoteCsv ""

/-- Is the value a finite number (a number other than NaN and the
infinities)? -/
def isFiniteNum : JVal → Bool
  | JVal.num (JNum.fin _) => true
  | _ => false

/-- Does an optional y-value belong to the well-behaved class for the
average/trend computations: absent, null, NaN or a finite number (that
is, neither a string nor an infinity)? -/
def cleanValB : Option JVal → Bool
  | none => true
  | some JVal.null => true
  | some (JVal.num (JNum.fin _)) => true
  | some (JVal.num JNum.nan) => true
  | some _ => false

/-- The numeric contribution of a row to the average or maximum, reading
the spec's words: the `yKey` value when it is a finite number, and 0 when
it is missing or not a finite number. -/
def specContrib (yKey : Option String) (r : Row) : ℚ :=
  match getKey r (keyName yKey) with
  | some (JVal.num (JNum.fin q)) => q
  | _ => 0

/-- Model of `handleExport` of the `MultiVisualization` component in
`src/unnamed/part_000`, reduced to its produced CSV text: it returns
without output when there is no active config or no processed row, and
otherwise joins the header row and the projected data rows with
newlines. -/
def handleExport (currentViz : Option VizConfig) (data : Option (List Row)) :
    Option String :=
  let processedData := useProcessedData data (currentViz.getD {})
  match currentViz with
  | none => none
  | some _ =>
    if processedData.isEmpty then none
    else
      let cols := csvColumns (data.getD [])
      some (String.intercalate "\n"
        (String.intercalate "," cols ::
          processedData.map (fun row =>
            String.intercalate "," (cols.map (fun col => csvCellImpl row col)))))

/-! Helper lemmas about the embedding. -/

theorem processAll_length (cfg : VizConfig) : ∀ (i : Nat) (rows : List Row),
    (processAll cfg i rows).length = rows.length := by
  intro i rows
  induction rows generalizing i with
  | nil => rfl
  | cons r rs ih => simp [processAll, ih]

theorem processAll_getElem (cfg : VizConfig) : ∀ (rows : List Row) (i j : Nat),
    (processAll cfg i rows)[j]? = (rows[j]?).map (fun r => processRow cfg (i + j) r) := by
  intro rows
  induction rows with
  | nil => intro i j; simp [processAll]
  | cons r rs ih =>
    intro i j
    cases j with
    | zero => simp [processAll]
    | succ j =>
      have h : i + 1 + j = i + (j + 1) := by omega
      simp only [processAll, List.getElem?_cons_succ]
      rw [ih (i + 1) j, h]

theorem getKey_setKey (r : Row) (k : String) (v : JVal) (key : String) :
    getKey (setKey r k v) key = if k = key then some v else getKey r key := by
  induction r with
  | nil =>
    by_cases h : k = key <;> simp [setKey, getKey, h]
  | cons p t ih =>
    obtain ⟨k1, v1⟩ := p
    by_cases h1 : k1 = k
    · subst h1
      by_cases h : k1 = key <;> simp [setKey, getKey, h]
    · by_cases h : k1 = key
      · subst h
        have hk : ¬ k = k1 := fun he => h1 he.symm
        simp [setKey, getKey, h1, hk]
      · simp [setKey, getKey, h1, h, ih]

theorem copyRow_getKey (row : Row) (k : String) :
    getKey (copyRow row) k =
      if strStartsWith k "_" then none else (getKey row k).map formatNumber := by
  induction row with
  | nil =>
    cases h : strStartsWith k "_" <;> simp [copyRow, getKey, h]
  | cons p t ih =>
    obtain ⟨k1, v1⟩ := p
    by_cases h1 : strStartsWith k1 "_" = true
    · by_cases hk : k1 = k
      · subst hk
        simp [copyRow, h1, getKey, ih]
      · simp [copyRow, h1, getKey, hk, ih]
    · by_cases hk : k1 = k
      · subst hk
        have hks : strStartsWith k1 "_" = false := by simpa using h1
        simp [copyRow, hks, getKey]
      · have hks : strStartsWith k1 "_" = false := by simpa using h1
        simp [copyRow, hks, getKey, hk, ih]

/-! Theorems settling the claims. -/

/-- C1: `useProcessedData` returns an output array whose length equals
the input length, whose element at every index is the normalization of
the input row at that same index (so input order is preserved), and which
is the empty array — not an error — for absent or empty input. -/
theorem C1_useProcessedData_length_order (rows : List Row) (cfg : VizConfig) (i : Nat) :
    (useProcessedData (some rows) cfg).length = rows.length ∧
    (useProcessedData (some rows) cfg)[i]? = (rows[i]?).map (fun r => processRow cfg i r) ∧
    useProcessedData none cfg = [] ∧
    useProcessedData (some []) cfg = [] := by
  refine ⟨?_, ?_, rfl, rfl⟩
  · cases rows with
    | nil => rfl
    | cons r rs =>
      simpa [useProcessedData] using processAll_length cfg 0 (r :: rs)
  · cases rows with
    | nil => simp [useProcessedData]
    | cons r rs =>
      simpa [useProcessedData] using processAll_getElem cfg (r :: rs) 0 i

/-- C6 counterexample: `utils.cleanKey` performs no alias resolution, so
on the alias reference "Revenue as R" it does not return the left-hand
expression "Revenue" that the claim requires. -/
theorem C6_counterexample :
    cleanKey (some "Revenue as R") = some "Revenue as R" ∧
    some "Revenue as R" ≠ (some "Revenue" : Option String) := by
  exact ⟨by decide, by decide⟩

/-- C6 amended: `utils.cleanKey` strips a trailing case-insensitive
asc/desc token preceded by at least one whitespace character, trims
surrounding whitespace, returns nullish input unchanged and never fails,
but performs no alias resolution; alias resolution (trimmed left-hand
side of "expr as alias") is performed only by the separate `processData`
path of `MultiVisualization.jsx`, which in turn strips no sort token. -/
theorem C6_cleanKey_aliasKey_behavior :
    cleanKey none = none ∧
    cleanKey (some "Revenue DESC") = some "Revenue" ∧
    cleanKey (some "Revenue") = some "Revenue" ∧
    cleanKey (some "  sales   Asc  ") = some "sales" ∧
    cleanKey (some "Revenue as R") = some "Revenue as R" ∧
    aliasKey "Revenue as R" = "Revenue" ∧
    aliasKey "Revenue DESC" = "Revenue DESC" := by
  refine ⟨rfl, by decide, by decide, by decide, by decide, by decide, by decide⟩

/-- C4: during row normalization every finite numeric field value is
rounded to 2 decimal places (half away up, landing on an exact
hundredth within 1/200 of the original), every value that is not a
finite number passes through `utils.formatNumber` unchanged, the
rounding step never turns a non-NaN value into NaN, and the copy step of
`useProcessedData` applies exactly this map to every non-internal
field. -/
theorem C4_formatNumber_rounding :
    (∀ q : ℚ, formatNumber (JVal.num (JNum.fin q)) = JVal.num (JNum.fin (round2 q))) ∧
    (∀ q : ℚ, ∃ k : ℤ, round2 q = (k : ℚ) / 100) ∧
    (∀ q : ℚ, |q - round2 q| ≤ 1 / 200) ∧
    (∀ v : JVal, isFiniteNum v = false → formatNumber v = v) ∧
    (∀ v : JVal, formatNumber v = JVal.num JNum.nan → v = JVal.num JNum.nan) ∧
    (∀ (row : Row) (k : String),
      getKey (copyRow row) k =
        if strStartsWith k "_" then none else (getKey row k).map formatNumber) := by
  refine ⟨fun q => rfl, fun q => ⟨round (q * 100), rfl⟩, ?_, ?_, ?_, copyRow_getKey⟩
  · intro q
    have h := abs_sub_round (q * 100)
    have e : q - round2 q = (q * 100 - ((round (q * 100) : ℤ) : ℚ)) / 100 := by
      unfold round2; ring
    rw [e, abs_div]
    have h100 : |(100 : ℚ)| = 100 := by norm_num
    rw [h100]
    linarith
  · intro v h
    cases v with
    | num n =>
      cases n with
      | fin q => simp [isFiniteNum] at h
      | nan => rfl
      | inf => rfl
      | ninf => rfl
    | str s => rfl
    | null => rfl
  · intro v h
    cases v with
    | num n =>
      cases n with
      | fin q => simp [formatNumber, toFixed2RoundTrip] at h
      | nan => rfl
      | inf => simp [formatNumber, toFixed2RoundTrip] at h
      | ninf => simp [formatNumber, toFixed2RoundTrip] at h
    | str s => simp [formatNumber] at h
    | null => simp [formatNumber] at h

/-- C4 witness: a string passes through the rounding step unchanged. -/
theorem C4_formatNumber_rounding_witness :
    formatNumber (JVal.str "abc") = JVal.str "abc" :=
  C4_formatNumber_rounding.2.2.2.1 (JVal.str "abc") rfl

/-- C3 counterexample: on a normalized sample row that carries a numeric
derived `value` field, `utils.getNumericColumns` keeps `value` in its
result, contradicting the claim that all three reserved derived keys are
excluded. -/
theorem C3_counterexample :
    getNumericColumns (some [("region", JVal.str "west"), ("q1", JVal.num (JNum.fin 10)),
        ("q2", JVal.num (JNum.fin 20)), ("value", JVal.num (JNum.fin 5)),
        ("color", JVal.str "#fff"), ("name", JVal.str "west")]) (some "region") =
      ["q1", "q2", "value"] ∧
    "value" ∈ getNumericColumns (some [("region", JVal.str "west"),
        ("q1", JVal.num (JNum.fin 10)), ("q2", JVal.num (JNum.fin 20)),
        ("value", JVal.num (JNum.fin 5)), ("color", JVal.str "#fff"),
        ("name", JVal.str "west")]) (some "region") := by
  exact ⟨by decide, by decide⟩

/-- C3 amended: `utils.getNumericColumns` returns exactly the keys of the
sample row whose value is numeric, excluding the category axis key and
the reserved derived keys `color` and `name` — but not `value` — in the
insertion order of the sample row's own keys; an absent sample row yields
the empty list. -/
theorem C3_getNumericColumns_spec (r : Row) (xk : Option String) :
    List.Sublist (getNumericColumns (some r) xk) (r.map Prod.fst) ∧
    (∀ k : String, k ∈ getNumericColumns (some r) xk ↔
      ∃ v, (k, v) ∈ r ∧ isNumVal v = true ∧ neqOpt k xk = true ∧
        k ≠ "color" ∧ k ≠ "name") ∧
    getNumericColumns none xk = [] := by
  refine ⟨?_, ?_, rfl⟩
  · show List.Sublist (r.filterMap _) (r.map Prod.fst)
    induction r with
    | nil => simp
    | cons p t ih =>
      simp only [List.filterMap_cons, List.map_cons]
      by_cases hc : (neqOpt p.1 xk && p.1 != "color" && p.1 != "name" && isNumVal p.2) = true
      · rw [if_pos hc]
        exact List.Sublist.cons₂ p.1 ih
      · rw [if_neg hc]
        exact List.Sublist.cons p.1 ih
  · intro k
    show k ∈ r.filterMap _ ↔ _
    rw [List.mem_filterMap]
    constructor
    · rintro ⟨⟨k1, v⟩, hmem, hf⟩
      by_cases hc : (neqOpt k1 xk && k1 != "color" && k1 != "name" && isNumVal v) = true
      · rw [if_pos hc] at hf
        obtain rfl : k1 = k := by simpa using hf
        simp only [Bool.and_eq_true, bne_iff_ne] at hc
        exact ⟨v, hmem, hc.2, hc.1.1.1, hc.1.1.2, hc.1.2⟩
      · rw [if_neg hc] at hf
        simp at hf
    · rintro ⟨v, hmem, h1, h2, h3, h4⟩
      refine ⟨(k, v), hmem, ?_⟩
      have hc : (neqOpt k xk && k != "color" && k != "name" && isNumVal v) = true := by
        simp only [Bool.and_eq_true, bne_iff_ne]
        exact ⟨⟨⟨h2, h3⟩, h4⟩, h1⟩
      rw [if_pos hc]

/-- C5 counterexample: when the configured y-axis value is not numeric
and the row carries a non-null, non-numeric `value` field, the derived
`value` field of the normalized row is that field unchanged — here the
string "abc" — and therefore not a number as the claim states. -/
theorem C5_counterexample :
    getKey ((useProcessedData (some [[("value", JVal.str "abc")]]) {}).headD []) "value" =
      some (JVal.str "abc") ∧
    isNumVal (JVal.str "abc") = false := by
  exact ⟨by decide, rfl⟩

/-- C5 amended: the derived `value` field of a normalized row follows the
fallback chain — the configured y-axis value when that value is a number
(possibly NaN or infinite), otherwise the row's own non-null `value`
field as-is, otherwise its non-null `percentage` field as-is, otherwise
the number 0 — where the fallback lookups read the copied-and-named row
state; the result is a number except when a non-null, non-numeric
`value` or `percentage` field is passed through. -/
theorem C5_value_chain (cfg : VizConfig) (i : Nat) (row : Row) :
    (∀ n : JNum,
      getKey (preNormalized cfg i row) (keyName (yKeyOf cfg)) = some (JVal.num n) →
      getKey (processRow cfg i row) "value" = some (JVal.num n)) ∧
    (∀ v : JVal,
      (∀ n : JNum,
        getKey (preNormalized cfg i row) (keyName (yKeyOf cfg)) ≠ some (JVal.num n)) →
      getKey (preNormalized cfg i row) "value" = some v → v ≠ JVal.null →
      getKey (processRow cfg i row) "value" = some v) ∧
    (∀ w : JVal,
      (∀ n : JNum,
        getKey (preNormalized cfg i row) (keyName (yKeyOf cfg)) ≠ some (JVal.num n)) →
      (getKey (preNormalized cfg i row) "value" = none ∨
        getKey (preNormalized cfg i row) "value" = some JVal.null) →
      getKey (preNormalized cfg i row) "percentage" = some w → w ≠ JVal.null →
      getKey (processRow cfg i row) "value" = some w) ∧
    ((∀ n : JNum,
        getKey (preNormalized cfg i row) (keyName (yKeyOf cfg)) ≠ some (JVal.num n)) →
      (getKey (preNormalized cfg i row) "value" = none ∨
        getKey (preNormalized cfg i row) "value" = some JVal.null) →
      (getKey (preNormalized cfg i row) "percentage" = none ∨
        getKey (preNormalized cfg i row) "percentage" = some JVal.null) →
      getKey (processRow cfg i row) "value" = some (JVal.num (JNum.fin 0))) := by
  have base : ∀ u : JVal, getKey (setKey (setKey (preNormalized cfg i row) "value" u)
      "color" (JVal.str (categoricalPalette.getD (i % categoricalPalette.length) ""))) "value" =
      some u := by
    intro u
    rw [getKey_setKey, if_neg (by decide), getKey_setKey, if_pos rfl]
  refine ⟨?_, ?_, ?_, ?_⟩
  · intro n hy
    show getKey (setKey (setKey _ "value" _) "color" _) "value" = _
    rw [base]
    rw [show (match getKey (preNormalized cfg i row) (keyName (yKeyOf cfg)) with
        | some (JVal.num n) => JVal.num n
        | _ => match getKey (preNormalized cfg i row) "value" with
               | some w => if w = JVal.null then pctOr0 (preNormalized cfg i row) else w
               | none => pctOr0 (preNormalized cfg i row)) = JVal.num n from by rw [hy]]
  · intro v hno hv hvn
    show getKey (setKey (setKey _ "value" _) "color" _) "value" = _
    rw [base]
    cases hy : getKey (preNormalized cfg i row) (keyName (yKeyOf cfg)) with
    | none => simp only [hy, hv, if_neg hvn]
    | some val =>
      cases val with
      | num n => exact absurd hy (hno n)
      | str s => simp only [hy, hv, if_neg hvn]
      | null => simp only [hy, hv, if_neg hvn]
  · intro w hno hval hp hwn
    have hpct : pctOr0 (preNormalized cfg i row) = w := by
      simp only [pctOr0, hp]
      rw [if_neg hwn]
    show getKey (setKey (setKey _ "value" _) "color" _) "value" = _
    rw [base]
    cases hy : getKey (preNormalized cfg i row) (keyName (yKeyOf cfg)) with
    | none =>
      rcases hval with hv | hv
      · simp only [hy, hv, hpct]
      · simp [hy, hv, hpct]
    | some val =>
      cases val with
      | num n => exact absurd hy (hno n)
      | str s =>
        rcases hval with hv | hv
        · simp only [hy, hv, hpct]
        · simp [hy, hv, hpct]
      | null =>
        rcases hval with hv | hv
        · simp only [hy, hv, hpct]
        · simp [hy, hv, hpct]
  · intro hno hval hpct
    have hp0 : pctOr0 (preNormalized cfg i row) = JVal.num (JNum.fin 0) := by
      rcases hpct with hp | hp
      · simp only [pctOr0, hp]
      · simp only [pctOr0, hp]
        simp
    show getKey (setKey (setKey _ "value" _) "color" _) "value" = _
    rw [base]
    cases hy : getKey (preNormalized cfg i row) (keyName (yKeyOf cfg)) with
    | none =>
      rcases hval with hv | hv
      · simp only [hy, hv, hp0]
      · simp [hy, hv, hp0]
    | some val =>
      cases val with
      | num n => exact absurd hy (hno n)
      | str s =>
        rcases hval with hv | hv
        · simp only [hy, hv, hp0]
        · simp [hy, hv, hp0]
      | null =>
        rcases hval with hv | hv
        · simp only [hy, hv, hp0]
        · simp [hy, hv, hp0]

/-- C5 witness: when the configured y-axis column holds the number 5, the
derived `value` field is that number. -/
theorem C5_value_chain_witness :
    getKey (processRow { axes := some { x := none, y := some "sales" } } 0
      [("sales", JVal.num (JNum.fin 5))]) "value" = some (JVal.num (JNum.fin 5)) :=
  (C5_value_chain { axes := some { x := none, y := some "sales" } } 0
    [("sales", JVal.num (JNum.fin 5))]).1 (JNum.fin 5) (by
      have hyk : yKeyOf ({ axes := some { x := none, y := some "sales" } } : VizConfig) =
          some "sales" := by decide
      have hsw : strStartsWith "sales" "_" = false := by decide
      have hkn : keyName (yKeyOf ({ axes := some { x := none, y := some "sales" } } :
          VizConfig)) = "sales" := by rw [hyk]; rfl
      rw [hkn]
      simp only [preNormalized, xKeyOf, withName, copyRow, hsw, Bool.false_eq_true, if_false]
      rw [getKey_setKey, if_neg (by decide)]
      simp only [getKey, if_pos, formatNumber, toFixed2RoundTrip]
      norm_num [round2, round_eq])

theorem jsDiv_fin_ne (S L : ℚ) (h : L ≠ 0) :
    jsDiv (JNum.fin S) (JNum.fin L) = JNum.fin (S / L) := by
  simp only [jsDiv]
  rw [if_neg h]

theorem finOrZero (x : ℚ) :
    (if truthyNum (JNum.fin x) = true then JNum.fin x else JNum.fin 0) = JNum.fin x := by
  by_cases hx : x = 0
  · subst hx; simp [truthyNum]
  · simp [truthyNum, hx]

theorem rawContrib_clean (yKey : Option String) (r : Row)
    (h : cleanValB (getKey r (keyName yKey)) = true) :
    rawContrib yKey r = JVal.num (JNum.fin (specContrib yKey r)) := by
  unfold rawContrib specContrib
  cases hg : getKey r (keyName yKey) with
  | none => rfl
  | some v =>
    cases v with
    | null => rfl
    | str s => rw [hg] at h; simp [cleanValB] at h
    | num n =>
      cases n with
      | fin q =>
        by_cases hq : q = 0
        · subst hq; simp [jsTruthy, truthyNum]
        · simp [jsTruthy, truthyNum, hq]
      | nan => rfl
      | inf => rw [hg] at h; simp [cleanValB] at h
      | ninf => rw [hg] at h; simp [cleanValB] at h

theorem avg_fold (yKey : Option String) : ∀ (rows : List Row) (q0 : ℚ),
    (∀ r ∈ rows, cleanValB (getKey r (keyName yKey)) = true) →
    rows.foldl (fun acc d => jsAdd acc (rawContrib yKey d)) (JVal.num (JNum.fin q0)) =
      JVal.num (JNum.fin (q0 + (rows.map (specContrib yKey)).sum)) := by
  intro rows
  induction rows with
  | nil => intro q0 h; simp
  | cons r t ih =>
    intro q0 h
    have hr := h r (List.mem_cons_self r t)
    have ht : ∀ x ∈ t, cleanValB (getKey x (keyName yKey)) = true :=
      fun x hx => h x (List.mem_cons_of_mem r hx)
    simp only [List.foldl_cons]
    rw [rawContrib_clean yKey r hr]
    have hstep : jsAdd (JVal.num (JNum.fin q0)) (JVal.num (JNum.fin (specContrib yKey r))) =
        JVal.num (JNum.fin (q0 + specContrib yKey r)) := rfl
    rw [hstep, ih (q0 + specContrib yKey r) ht]
    simp only [List.map_cons, List.sum_cons]
    ring_nf

theorem avgValue_clean (yKey : Option String) (rows : List Row)
    (h : ∀ r ∈ rows, cleanValB (getKey r (keyName yKey)) = true) :
    avgValue rows yKey =
      JNum.fin ((rows.map (specContrib yKey)).sum / (rows.length : ℚ)) := by
  simp only [avgValue]
  rw [avg_fold yKey rows 0 h, zero_add]
  cases rows with
  | nil => norm_num [toNumber, jsDiv, truthyNum]
  | cons r t =>
    have hlen : (((r :: t).length : ℕ) : ℚ) ≠ 0 := by
      rw [List.length_cons]
      exact_mod_cast Nat.succ_ne_zero t.length
    have ht : toNumber (JVal.num (JNum.fin (((r :: t).map (specContrib yKey)).sum))) =
        JNum.fin (((r :: t).map (specContrib yKey)).sum) := rfl
    rw [ht, jsDiv_fin_ne _ _ hlen, finOrZero]

/-- C2 counterexample: a non-numeric (string) `yKey` value does not
contribute 0 to the average; through JavaScript string concatenation the
reduce accumulates the string "05", so the single-row average becomes 5
where the claim demands the mean with that value as 0, namely 0. -/
theorem C2_counterexample :
    computeAnnotations [[("y", JVal.str "5")]]
      [{ type := some "line", mode := some "average" }] (some "y") =
      [AnnotationResult.line (JNum.fin 5) "#666" "3 3" (some "Avg")] ∧
    JNum.fin 5 ≠ JNum.fin (((0 : ℚ)) / 1) := by
  constructor
  · have havg : avgValue [[("y", JVal.str "5")]] (some "y") = JNum.fin 5 := by
      simp only [avgValue, List.foldl_cons, List.foldl_nil, List.length_cons, List.length_nil]
      have hraw : rawContrib (some "y") [("y", JVal.str "5")] = JVal.str "5" := by decide
      rw [hraw]
      have hadd : jsAdd (JVal.num (JNum.fin 0)) (JVal.str "5") =
          JVal.str (jnumToString (JNum.fin 0) ++ "5") := rfl
      rw [hadd]
      have h0 : jnumToString (JNum.fin 0) = "0" := by
        simp +decide only [jnumToString, ratToString, posRatToString, natToString,
          natToDigits, fracDigits, Nat.digitChar]
        norm_num
      rw [h0]
      have hparse : toNumber (JVal.str ("0" ++ "5")) = JNum.fin 5 := by decide
      rw [hparse]
      have hdiv : jsDiv (JNum.fin 5) (JNum.fin ((0 + 1 : ℕ) : ℚ)) = JNum.fin 5 := by
        rw [jsDiv_fin_ne 5 ((0 + 1 : ℕ) : ℚ) (by norm_num)]
        norm_num
      rw [hdiv]
      decide
    show computeAnnotations _ _ _ = _
    unfold computeAnnotations
    rw [if_neg (by simp)]
    simp only [List.filterMap_cons, List.filterMap_nil, evalAnno]
    simp +decide [truthyKey, havg, strOr]
  · intro h
    rw [JNum.fin.injEq] at h
    norm_num at h

/-- C2 amended: over rows whose `yKey` values are each absent, null, NaN
or a finite number, the average annotation value is the arithmetic mean
with those absent/null/NaN values contributing 0, and an empty row list
yields 0 (never NaN); but a string (or infinite) `yKey` value is not
treated as 0 — a string coerces the whole reduce into string
concatenation, so the claim's clause about arbitrary non-numeric values
does not hold of the code. -/
theorem C2_average_line (rows : List Row) (yKey : Option String) (a : AnnotationSpec)
    (ht : a.type = some "line") (hm : a.mode = some "average")
    (hk : truthyKey yKey = true)
    (hclean : ∀ r ∈ rows, cleanValB (getKey r (keyName yKey)) = true) :
    computeAnnotations rows [a] yKey =
      [AnnotationResult.line
        (JNum.fin ((rows.map (specContrib yKey)).sum / (rows.length : ℚ)))
        (strOr (a.style.getD {}).stroke "#666")
        (strOr (a.style.getD {}).strokeDasharray "3 3")
        (some (strOr a.label "Avg"))] := by
  unfold computeAnnotations
  rw [if_neg (by simp)]
  simp only [List.filterMap_cons, List.filterMap_nil, evalAnno]
  rw [if_pos ⟨ht, hm, hk⟩, avgValue_clean yKey rows hclean]

/-- C2 witness: the spec's own example — rows with y-values 10, 20, 30
average to 20 with the default gray dashed style and "Avg" label. -/
theorem C2_average_line_witness :
    computeAnnotations
      [[("y", JVal.num (JNum.fin 10))], [("y", JVal.num (JNum.fin 20))],
        [("y", JVal.num (JNum.fin 30))]]
      [{ type := some "line", mode := some "average" }] (some "y") =
      [AnnotationResult.line (JNum.fin 20) "#666" "3 3" (some "Avg")] := by
  rw [C2_average_line
    [[("y", JVal.num (JNum.fin 10))], [("y", JVal.num (JNum.fin 20))],
      [("y", JVal.num (JNum.fin 30))]]
    (some "y") { type := some "line", mode := some "average" } rfl rfl (by decide) (by decide)]
  have hsum : ([[("y", JVal.num (JNum.fin 10))], [("y", JVal.num (JNum.fin 20))],
      [("y", JVal.num (JNum.fin 30))]].map (specContrib (some "y"))).sum = (60 : ℚ) := by
    have h1 : specContrib (some "y") [("y", JVal.num (JNum.fin 10))] = 10 := by decide
    have h2 : specContrib (some "y") [("y", JVal.num (JNum.fin 20))] = 20 := by decide
    have h3 : specContrib (some "y") [("y", JVal.num (JNum.fin 30))] = 30 := by decide
    simp only [List.map_cons, List.map_nil, List.sum_cons, List.sum_nil, h1, h2, h3]
    norm_num
  simp only [List.length_cons, List.length_nil, hsum]
  norm_num [strOr]

theorem foldl_max_spec (xs : List ℚ) : ∀ x : ℚ,
    (List.foldl max x xs = x ∨ List.foldl max x xs ∈ xs) ∧
    x ≤ List.foldl max x xs ∧ ∀ y ∈ xs, y ≤ List.foldl max x xs := by
  induction xs with
  | nil => intro x; simp
  | cons a t ih =>
    intro x
    obtain ⟨h1, h2, h3⟩ := ih (max x a)
    refine ⟨?_, ?_, ?_⟩
    · simp only [List.foldl_cons]
      rcases h1 with h | h
      · rcases max_choice x a with hx | hx
        · left; rw [h, hx]
        · right; rw [h, hx]; exact List.mem_cons_self a t
      · right; exact List.mem_cons_of_mem a h
    · simp only [List.foldl_cons]
      exact le_trans (le_max_left x a) h2
    · intro y hy
      simp only [List.foldl_cons]
      rcases List.mem_cons.mp hy with rfl | hy
      · exact le_trans (le_max_right x y) h2
      · exact h3 y hy

theorem jsMax_fin_aux (l : List ℚ) : ∀ q0 : ℚ,
    List.foldl jnumMax (JNum.fin q0) (l.map JNum.fin) = JNum.fin (List.foldl max q0 l) := by
  induction l with
  | nil => intro q0; rfl
  | cons a t ih =>
    intro q0
    simp only [List.map_cons, List.foldl_cons]
    exact ih (max q0 a)

theorem jsMax_fin (l : List ℚ) (h : l ≠ []) :
    ∃ q, jsMax (l.map JNum.fin) = JNum.fin q ∧ q ∈ l ∧ ∀ x ∈ l, x ≤ q := by
  cases l with
  | nil => exact absurd rfl h
  | cons a t =>
    refine ⟨List.foldl max a t, ?_, ?_, ?_⟩
    · simp only [jsMax, List.map_cons, List.foldl_cons]
      exact jsMax_fin_aux t a
    · rcases (foldl_max_spec t a).1 with h1 | h1
      · rw [h1]; exact List.mem_cons_self a t
      · exact List.mem_cons_of_mem a h1
    · intro x hx
      rcases List.mem_cons.mp hx with rfl | hx
      · exact (foldl_max_spec t x).2.1
      · exact (foldl_max_spec t a).2.2 x hx

/-- C7: a trend or regression line annotation spec over a non-empty row
list whose `yKey` values are each absent, null, NaN or a finite number
produces exactly one horizontal line, whose value is the maximum observed
`yKey` contribution across the rows (absent/null/NaN treated as 0) — the
documented placeholder, not a fitted regression. -/
theorem C7_trend_max_line (rows : List Row) (yKey : Option String) (a : AnnotationSpec)
    (hne : rows ≠ [])
    (hclean : ∀ r ∈ rows, cleanValB (getKey r (keyName yKey)) = true)
    (ht : a.type = some "line")
    (hm : a.mode = some "trend" ∨ a.mode = some "regression") :
    ∃ q : ℚ,
      computeAnnotations rows [a] yKey =
        [AnnotationResult.line (JNum.fin q)
          (strOr (a.style.getD {}).stroke "rgba(255,0,0,0.5)")
          (strOr (a.style.getD {}).strokeDasharray "5,5")
          (some (strOr a.label "Trend/Max"))] ∧
      q ∈ rows.map (specContrib yKey) ∧
      ∀ r ∈ rows, specContrib yKey r ≤ q := by
  have hmap : rows.map (fun d => toNumber (rawContrib yKey d)) =
      (rows.map (specContrib yKey)).map JNum.fin := by
    rw [List.map_map]
    refine List.map_congr_left ?_
    intro d hd
    rw [rawContrib_clean yKey d (hclean d hd)]
    rfl
  have hne2 : rows.map (specContrib yKey) ≠ [] := by
    simpa using hne
  obtain ⟨q, hq, hqm, hqb⟩ := jsMax_fin (rows.map (specContrib yKey)) hne2
  have hmaxv : maxValue rows yKey = JNum.fin q := by
    unfold maxValue
    rw [hmap, hq]
  have hfirst : ¬ (a.type = some "line" ∧ a.mode = some "average" ∧
      truthyKey yKey = true) := by
    rintro ⟨-, hma, -⟩
    rcases hm with h | h <;> rw [h] at hma <;> exact absurd hma (by decide)
  refine ⟨q, ?_, hqm, fun r hr => hqb (specContrib yKey r) (List.mem_map_of_mem _ hr)⟩
  unfold computeAnnotations
  rw [if_neg (by simp)]
  simp only [List.filterMap_cons, List.filterMap_nil, evalAnno]
  rw [if_neg hfirst, if_pos ⟨ht, hm⟩, hmaxv]

/-- C7 witness: over rows with y-values 10 and 20 a trend spec emits one
horizontal line at an attained upper bound of the observed values. -/
theorem C7_trend_max_line_witness :
    ∃ q : ℚ,
      computeAnnotations [[("y", JVal.num (JNum.fin 10))], [("y", JVal.num (JNum.fin 20))]]
        [{ type := some "line", mode := some "trend" }] (some "y") =
        [AnnotationResult.line (JNum.fin q) "rgba(255,0,0,0.5)" "5,5" (some "Trend/Max")] ∧
      q ∈ ([[("y", JVal.num (JNum.fin 10))], [("y", JVal.num (JNum.fin 20))]].map
        (specContrib (some "y"))) ∧
      ∀ r ∈ [[("y", JVal.num (JNum.fin 10))], [("y", JVal.num (JNum.fin 20))]],
        specContrib (some "y") r ≤ q :=
  C7_trend_max_line [[("y", JVal.num (JNum.fin 10))], [("y", JVal.num (JNum.fin 20))]]
    (some "y") { type := some "line", mode := some "trend" }
    (by simp) (by decide) rfl (Or.inl rfl)

/-- C8: a dot annotation spec missing either coordinate is skipped — the
per-spec evaluator returns nothing and the computed annotation list for
that spec is empty, with no error raised (the evaluator is total). -/
theorem C8_dot_missing_coordinate (rows : List Row) (yKey : Option String)
    (a : AnnotationSpec) (ht : a.type = some "dot")
    (hxy : a.x = none ∨ a.y = none) :
    evalAnno rows yKey a = none ∧ computeAnnotations rows [a] yKey = [] := by
  have hl : a.type ≠ some "line" := by rw [ht]; decide
  have h1 : ¬ (a.type = some "line" ∧ a.mode = some "average" ∧
      truthyKey yKey = true) := fun hc => hl hc.1
  have h2 : ¬ (a.type = some "line" ∧
      (a.mode = some "trend" ∨ a.mode = some "regression")) := fun hc => hl hc.1
  have h4 : ¬ (a.type = some "dot" ∧ a.x ≠ none ∧ a.y ≠ none) := by
    rintro ⟨-, hx, hy⟩
    rcases hxy with h | h
    · exact hx h
    · exact hy h
  have he : evalAnno rows yKey a = none := by
    simp only [evalAnno]
    rw [if_neg h1, if_neg h2, if_neg hl, if_neg h4]
  refine ⟨he, ?_⟩
  unfold computeAnnotations
  rw [if_neg (by simp)]
  simp [List.filterMap_cons, he]

/-- C8 witness: the claim's own example — a dot spec with `x` present but
`y` missing yields an empty result list over a one-row dataset. -/
theorem C8_dot_missing_coordinate_witness :
    evalAnno [[("sales", JVal.num (JNum.fin 1))]] (some "sales")
      { type := some "dot", x := some (JVal.num (JNum.fin 5)) } = none ∧
    computeAnnotations [[("sales", JVal.num (JNum.fin 1))]]
      [{ type := some "dot", x := some (JVal.num (JNum.fin 5)) }] (some "sales") = [] :=
  C8_dot_missing_coordinate [[("sales", JVal.num (JNum.fin 1))]] (some "sales")
    { type := some "dot", x := some (JVal.num (JNum.fin 5)) } rfl (Or.inr rfl)

/-- C9: whenever `handleExport` produces a CSV, that CSV is the header
row — the projected column names joined by commas without quoting —
followed by one line per normalized row, each cell rendered as-is when
the value is numeric and as a double-quoted string with embedded double
quotes doubled otherwise (a missing or null cell renders as an empty
quoted string). -/
theorem C9_csv_format (viz : VizConfig) (data : List Row) (csv : String)
    (h : handleExport (some viz) (some data) = some csv) :
    csv = String.intercalate "\n"
      (String.intercalate "," (csvColumns data) ::
        (useProcessedData (some data) viz).map (fun row =>
          String.intercalate "," ((csvColumns data).map (fun col => csvCellImpl row col)))) ∧
    (∀ (row : Row) (col : String) (n : JNum),
      getKey row col = some (JVal.num n) → csvCellImpl row col = jnumToString n) ∧
    (∀ (row : Row) (col : String) (s : String),
      getKey row col = some (JVal.str s) →
        csvCellImpl row col = "\"" ++ String.mk (escQuotes s.toList) ++ "\"") := by
  refine ⟨?_, ?_, ?_⟩
  · simp only [handleExport, Option.getD] at h
    split at h
    · exact absurd h (by simp)
    · rw [Option.some.injEq] at h
      exact h.symm
  · intro row col n hg
    unfold csvCellImpl
    rw [hg]
  · intro row col s hg
    unfold csvCellImpl
    rw [hg]
    rfl

/-- C9 witness: a dataset with an embedded double quote exports with the
unquoted header and the escaped, quoted string cells. -/
theorem C9_csv_format_witness :
    handleExport (some {}) (some [[("a", JVal.str "x\"y"), ("b", JVal.str "plain")]]) =
      some "a,b\n\"x\"\"y\",\"plain\"" ∧
    "a,b\n\"x\"\"y\",\"plain\"" = String.intercalate "\n"
      (String.intercalate ","
          (csvColumns [[("a", JVal.str "x\"y"), ("b", JVal.str "plain")]]) ::
        (useProcessedData (some [[("a", JVal.str "x\"y"), ("b", JVal.str "plain")]]) {}).map
          (fun row => String.intercalate ","
            ((csvColumns [[("a", JVal.str "x\"y"), ("b", JVal.str "plain")]]).map
              (fun col => csvCellImpl row col)))) :=
  ⟨by decide, (C9_csv_format {} [[("a", JVal.str "x\"y"), ("b", JVal.str "plain")]]
    "a,b\n\"x\"\"y\",\"plain\"" (by decide)).1⟩

/-- C10: the export handler produces no CSV output at all — not even a
header-only file — when the active visualization config is absent or the
normalized row set is empty; the embedding is a pure function whose only
effect is the returned CSV, so no other state is touched. -/
theorem C10_export_guard (data : Option (List Row)) (viz : VizConfig) :
    handleExport none data = none ∧
    (useProcessedData data viz = [] → handleExport (some viz) data = none) := by
  constructor
  · rfl
  · intro h
    simp only [handleExport, Option.getD]
    rw [h]
    rfl

/-- C10 witness: an absent config with data present, and a present config
with absent data, both export nothing. -/
theorem C10_export_guard_witness :
    handleExport none (some [[("a", JVal.num (JNum.fin 1))]]) = none ∧
    handleExport (some {}) none = none :=
  ⟨(C10_export_guard (some [[("a", JVal.num (JNum.fin 1))]]) {}).1,
    (C10_export_guard none {}).2 rfl⟩

end VizEngine
